import Mathlib

/- Verification development for the dotted-globe geometry and animation
   pipeline (client/src/components/Globe.tsx).

   The geometry helpers are shallowly embedded: pure functions over the
   reals (projection, arc builder, magnet easing) or over a general
   linear ordered field (topology decoding, point-in-polygon
   classification, instantiated at the rationals for executable checks).
   JavaScript mutation loops become folds or structural recursion;
   the two while-loops of normalizeAngle become well-founded recursion
   whose termination measure is part of the development. -/

-- ── 3D vectors (the THREE.Vector3 operations the code uses) ──────────────────

structure Vec3 where
  x : ℝ
  y : ℝ
  z : ℝ

def Vec3.add (a b : Vec3) : Vec3 := ⟨a.x + b.x, a.y + b.y, a.z + b.z⟩

def Vec3.sub (a b : Vec3) : Vec3 := ⟨a.x - b.x, a.y - b.y, a.z - b.z⟩

def Vec3.smul (c : ℝ) (v : Vec3) : Vec3 := ⟨c * v.x, c * v.y, c * v.z⟩

def Vec3.zero : Vec3 := ⟨0, 0, 0⟩

noncomputable def Vec3.norm (v : Vec3) : ℝ := Real.sqrt (v.x ^ 2 + v.y ^ 2 + v.z ^ 2)

/-- THREE.Vector3.distanceTo. -/
noncomputable def Vec3.dist (a b : Vec3) : ℝ := Vec3.norm (Vec3.sub a b)

/-- THREE.Vector3.lerpVectors: componentwise a + (b - a) * t. -/
def Vec3.lerp (a b : Vec3) (t : ℝ) : Vec3 :=
  ⟨a.x + (b.x - a.x) * t, a.y + (b.y - a.y) * t, a.z + (b.z - a.z) * t⟩

/-- Unit-renormalization (spec-side companion used to state claims). -/
noncomputable def Vec3.normalizeV (v : Vec3) : Vec3 := Vec3.smul (Vec3.norm v)⁻¹ v

-- ── Geographic projection (latLngTo3D, Globe.tsx lines 252-260) ──────────────

noncomputable def latLngTo3D (lat lng radius : ℝ) : Vec3 :=
  let phi := (90 - lat) * (Real.pi / 180)
  let theta := (lng + 180) * (Real.pi / 180)
  ⟨-radius * Real.sin phi * Real.cos theta,
    radius * Real.cos phi,
    radius * Real.sin phi * Real.sin theta⟩

-- ── Arc builder (createArc, Globe.tsx lines 436-462) ─────────────────────────

noncomputable def createArcHeight (globeRadius : ℝ) (s e : Vec3) : ℝ :=
  min (globeRadius * 0.4) (Vec3.dist s e * 0.3)

/- The i-th sample of createArc.  The source computes
   point.normalize().multiplyScalar(globeRadius + arcHeight * sin(t*PI)).
   THREE's normalize divides by the length when it is nonzero and leaves the
   zero vector unchanged (divideScalar(length() || 1)); multiplying the zero
   vector by the scalar afterwards again gives the zero vector.  With Lean's
   division-by-zero convention (c / 0 = 0) the single formula below agrees
   with the source in both cases. -/
noncomputable def createArcPoint (globeRadius : ℝ) (s e : Vec3) (i : ℕ) : Vec3 :=
  let t : ℝ := (i : ℝ) / 50
  let p := Vec3.lerp s e t
  Vec3.smul ((globeRadius + createArcHeight globeRadius s e * Real.sin (t * Real.pi)) / Vec3.norm p) p

/-- The 51 samples (segments = 50, loop i = 0..segments). -/
noncomputable def createArcPoints (globeRadius : ℝ) (s e : Vec3) : List Vec3 :=
  (List.range 51).map (createArcPoint globeRadius s e)

-- ── Focus rotation and angle normalization (Globe.tsx 489-500) ───────────────

noncomputable def focusRotation (lat lng : ℝ) : ℝ × ℝ :=
  (lat * (Real.pi / 180) * 0.69, -(lng + 90) * (Real.pi / 180))

/-- First while-loop of normalizeAngle: while (angle > PI) angle -= 2*PI. -/
noncomputable def wrapDown (a : ℝ) : ℝ :=
  if h : Real.pi < a then wrapDown (a - 2 * Real.pi) else a
termination_by (⌈(a - Real.pi) / (2 * Real.pi)⌉).toNat
decreasing_by
  have hpi := Real.pi_pos
  have h2 : (0:ℝ) < 2 * Real.pi := by linarith
  have hu : 0 < (a - Real.pi) / (2 * Real.pi) := div_pos (by linarith) h2
  have hceil : 1 ≤ ⌈(a - Real.pi) / (2 * Real.pi)⌉ := Int.ceil_pos.mpr hu
  have heq : (a - 2 * Real.pi - Real.pi) / (2 * Real.pi)
      = (a - Real.pi) / (2 * Real.pi) - 1 := by
    field_simp
    ring
  rw [heq, Int.ceil_sub_one]
  omega

/-- Second while-loop of normalizeAngle: while (angle < -PI) angle += 2*PI. -/
noncomputable def wrapUp (a : ℝ) : ℝ :=
  if h : a < -Real.pi then wrapUp (a + 2 * Real.pi) else a
termination_by (⌈(-a - Real.pi) / (2 * Real.pi)⌉).toNat
decreasing_by
  have hpi := Real.pi_pos
  have h2 : (0:ℝ) < 2 * Real.pi := by linarith
  have hu : 0 < (-a - Real.pi) / (2 * Real.pi) := div_pos (by linarith) h2
  have hceil : 1 ≤ ⌈(-a - Real.pi) / (2 * Real.pi)⌉ := Int.ceil_pos.mpr hu
  have heq : (-(a + 2 * Real.pi) - Real.pi) / (2 * Real.pi)
      = (-a - Real.pi) / (2 * Real.pi) - 1 := by
    field_simp
    ring
  rw [heq, Int.ceil_sub_one]
  omega

noncomputable def normalizeAngle (a : ℝ) : ℝ := wrapUp (wrapDown a)

-- ── Magnet-return easing step on the y angle (animate, lines 751-759) ────────

/- The two sequential conditional re-wraps applied to diffY:
   if (diffY > PI) diffY -= 2*PI; if (diffY < -PI) diffY += 2*PI. -/
noncomputable def wrapDiff (d : ℝ) : ℝ :=
  let d1 := if Real.pi < d then d - 2 * Real.pi else d
  if d1 < -Real.pi then d1 + 2 * Real.pi else d1

/-- diffY as applied (targetY := focusRot.y, currentY := normalizeAngle of target y). -/
noncomputable def magnetDiffY (ty fy : ℝ) : ℝ := wrapDiff (fy - normalizeAngle ty)

/-- One magnet easing pass on the target y: targetRotation.y += diffY * 0.09. -/
noncomputable def magnetStepY (ty fy : ℝ) : ℝ := ty + magnetDiffY ty fy * 0.09

-- ── Per-arc pulse state and the per-frame update (animate, 787-802; 671) ─────

structure ArcState where
  pulseProgress : ℝ
  delay : ℝ
  visible : Bool

/-- Arc record as pushed at creation: delay := index * 0.15 (line 671).
The initial progress is Math.random(), passed in as a parameter. -/
noncomputable def mkArcState (index : ℕ) (initialProgress : ℝ) : ArcState :=
  { pulseProgress := initialProgress, delay := (index : ℝ) * 0.15, visible := true }

/- One animation-frame update of a single arc's pulse:
   pulseProgress += 0.006; if (> 1.2) reset to -(delay * 0.5);
   visible iff the post-update progress is strictly within (0, 1). -/
noncomputable def arcPulseStep (a : ArcState) : ArcState :=
  let p1 := a.pulseProgress + 0.006
  let p2 := if 1.2 < p1 then -(a.delay * 0.5) else p1
  { pulseProgress := p2, delay := a.delay, visible := decide (0 < p2 ∧ p2 < 1) }

/-- The frame loop over the arcs array. -/
noncomputable def arcsFrameUpdate (arcs : List ArcState) : List ArcState :=
  arcs.map arcPulseStep

-- ── Point classifier (getPolygonBounds / pointInPolygon, lines 262-298) ──────

structure Bounds (α : Type) where
  minX : α
  maxX : α
  minY : α
  maxY : α

/- The source initializes the bounds to plus/minus Infinity and folds min/max
   over every vertex; over an ordered field without infinities this is the
   fold over the tail started at the first vertex.  An empty ring yields
   infinite bounds, against which every finite point is rejected: that case
   is `none` here and pointInPolygon returns false on it.  The WeakMap cache
   is pure memoization with no semantic content. -/
def boundsStep {α : Type} [LinearOrderedField α] (b : Bounds α) (q : α × α) : Bounds α :=
  ⟨min b.minX q.1, max b.maxX q.1, min b.minY q.2, max b.maxY q.2⟩

def getPolygonBounds {α : Type} [LinearOrderedField α] :
    List (α × α) → Option (Bounds α)
  | [] => none
  | q :: rest => some (rest.foldl boundsStep ⟨q.1, q.1, q.2, q.2⟩)

/-- One ray-casting edge test: ((yi > y) !== (yj > y)) &&
(x < (xj - xi) * (y - yi) / (yj - yi) + xi). -/
def edgeFlip {α : Type} [LinearOrderedField α] (x y : α) (vi vj : α × α) : Bool :=
  (decide (y < vi.2) != decide (y < vj.2))
    && decide (x < (vj.1 - vi.1) * (y - vi.2) / (vj.2 - vi.2) + vi.1)

/-- Edge pairs visited by `for (i = 0, j = n - 1; i < n; j = i++)`:
(polygon[i], polygon[j]) with j the previous index, wrapping to the last. -/
def edgeList {α : Type} (polygon : List (α × α)) : List ((α × α) × (α × α)) :=
  match polygon.getLast? with
  | none => []
  | some l => polygon.zip (l :: polygon.dropLast)

/-- The even-odd crossing loop: `if (cond) inside = !inside`. -/
def rayCast {α : Type} [LinearOrderedField α] (x y : α) (polygon : List (α × α)) : Bool :=
  (edgeList polygon).foldl
    (fun inside e => if edgeFlip x y e.1 e.2 then !inside else inside) false

def pointInPolygon {α : Type} [LinearOrderedField α]
    (point : α × α) (polygon : List (α × α)) : Bool :=
  match getPolygonBounds polygon with
  | none => false
  | some b =>
      if point.1 < b.minX ∨ b.maxX < point.1 ∨ point.2 < b.minY ∨ b.maxY < point.2 then false
      else rayCast point.1 point.2 polygon

/-- Call-count instrumentation for the fast-path property: how many
ray-casting edge tests pointInPolygon evaluates on this input. -/
def pointInPolygonEdgeTests {α : Type} [LinearOrderedField α]
    (point : α × α) (polygon : List (α × α)) : ℕ :=
  match getPolygonBounds polygon with
  | none => 0
  | some b =>
      if point.1 < b.minX ∨ b.maxX < point.1 ∨ point.2 < b.minY ∨ b.maxY < point.2 then 0
      else (edgeList polygon).length

/-- Division-checked edge test: poison (`none`) if the edge test would divide
by zero, i.e. if the crossing condition holds with yj - yi = 0. -/
def edgeFlipChecked {α : Type} [LinearOrderedField α] (x y : α) (vi vj : α × α) : Option Bool :=
  if decide (y < vi.2) != decide (y < vj.2) then
    if vj.2 - vi.2 = 0 then none
    else some (edgeFlip x y vi vj)
  else some false

def rayCastChecked {α : Type} [LinearOrderedField α]
    (x y : α) (polygon : List (α × α)) : Option Bool :=
  (edgeList polygon).foldl
    (fun acc e => acc.bind (fun inside =>
      (edgeFlipChecked x y e.1 e.2).map (fun f => if f then !inside else inside)))
    (some false)

def pointInPolygonChecked {α : Type} [LinearOrderedField α]
    (point : α × α) (polygon : List (α × α)) : Option Bool :=
  match getPolygonBounds polygon with
  | none => some false
  | some b =>
      if point.1 < b.minX ∨ b.maxX < point.1 ∨ point.2 < b.minY ∨ b.maxY < point.2 then some false
      else rayCastChecked point.1 point.2 polygon

/-- pointInMultiPolygon: true if any ring matches (early-return loop). -/
def pointInMultiPolygon {α : Type} [LinearOrderedField α]
    (point : α × α) (polygons : List (List (α × α))) : Bool :=
  polygons.any (pointInPolygon point)

-- ── Topology decoder (arcToCoords / topoJsonToPolygons / getCountryPolygons) ─

structure TopoTransform where
  scale : ℚ × ℚ
  translate : ℚ × ℚ

/-- A TopoJSON geometry id: a string or a number (country entries carry one). -/
inductive IdVal where
  | istr (s : String)
  | inum (n : ℤ)

inductive Geometry where
  | polygon (rings : List (List ℤ)) (id : Option IdVal)
  | multiPolygon (polys : List (List (List ℤ))) (id : Option IdVal)
  | geometryCollection (geoms : List Geometry) (id : Option IdVal)
  | otherGeom (id : Option IdVal)

structure Topology where
  transform : Option TopoTransform
  arcs : List (List (ℚ × ℚ))
  objects : List (String × Geometry)

/-- `lng = x * scale[0] + translate[0]; lat = y * scale[1] + translate[1]`
when a transform is present, identity otherwise. -/
def applyTransform (t : Option TopoTransform) (p : ℚ × ℚ) : ℚ × ℚ :=
  match t with
  | none => p
  | some tr => (p.1 * tr.scale.1 + tr.translate.1, p.2 * tr.scale.2 + tr.translate.2)

/-- Inner loop of arcToCoords: running (x, y) delta accumulation, pushing the
(possibly transformed) absolute coordinate for each delta point. -/
def decodeArcLoop (t : Option TopoTransform) (x y : ℚ) : List (ℚ × ℚ) → List (ℚ × ℚ)
  | [] => []
  | p :: rest =>
      applyTransform t (x + p.1, y + p.2) :: decodeArcLoop t (x + p.1) (y + p.2) rest

/-- `arcIndex < 0 ? ~arcIndex : arcIndex` — JavaScript bitwise NOT on a
negative index is its one's complement, -i - 1. -/
def resolveIndex (i : ℤ) : ℕ := if i < 0 then (-i - 1).toNat else i.toNat

/-- Body of the outer loop of arcToCoords for one signed arc index: decode the
referenced arc and reverse the result when the index is negative. -/
def decodeSegment (topo : Topology) (i : ℤ) : List (ℚ × ℚ) :=
  let arc := topo.arcs.getD (resolveIndex i) []
  let arcCoords := decodeArcLoop topo.transform 0 0 arc
  if i < 0 then arcCoords.reverse else arcCoords

/-- arcToCoords: `coords.push(...arcCoords.slice(coords.length > 0 ? 1 : 0))`. -/
def arcToCoords (topo : Topology) (arcIndexes : List ℤ) : List (ℚ × ℚ) :=
  arcIndexes.foldl
    (fun coords i =>
      let seg := decodeSegment topo i
      coords ++ (if 0 < coords.length then seg.drop 1 else seg))
    []

-- Spec-side companions for the decoder claim (stated from the documented
-- behaviour, to be proved equal to the source embedding above).

/-- Absolute coordinates as cumulative sums of the deltas. -/
def prefixSumsSpec (arc : List (ℚ × ℚ)) : List (ℚ × ℚ) :=
  (arc.scanl (fun acc d => (acc.1 + d.1, acc.2 + d.2)) (0, 0)).tail

/-- Documented decoding of one signed arc reference: cumulative sums, then the
document transform, reversed for a negative (one's-complement) index. -/
def decodeSegmentSpec (topo : Topology) (i : ℤ) : List (ℚ × ℚ) :=
  let abs := (prefixSumsSpec (topo.arcs.getD (resolveIndex i) [])).map (applyTransform topo.transform)
  if i < 0 then abs.reverse else abs

/-- Documented stitching: keep the first segment whole, drop the first vertex
(the shared joint) of every later segment. -/
def stitchSpec : List (List (ℚ × ℚ)) → List (ℚ × ℚ)
  | [] => []
  | s :: ss => s ++ (ss.map (fun t => t.drop 1)).flatten

-- ── TopoJSON object extraction (lines 323-368) ───────────────────────────────

/-- Ring extraction shared verbatim by topoJsonToPolygons and
getCountryPolygons: decode each ring, keep it if it has more than 2 points;
geometry types other than Polygon/MultiPolygon contribute nothing. -/
def polygonRings (topo : Topology) : Geometry → List (List (ℚ × ℚ))
  | Geometry.polygon rings _ =>
      (rings.map (arcToCoords topo)).filter (fun c => 2 < c.length)
  | Geometry.multiPolygon polys _ =>
      polys.flatMap (fun rings => (rings.map (arcToCoords topo)).filter (fun c => 2 < c.length))
  | _ => []

def topoJsonToPolygons (topo : Topology) (objectName : String) : List (List (ℚ × ℚ)) :=
  match topo.objects.lookup objectName with
  | none => []
  | some obj =>
      let geometries := match obj with
        | Geometry.geometryCollection gs _ => gs
        | g => [g]
      geometries.flatMap (polygonRings topo)

def geomId : Geometry → Option IdVal
  | Geometry.polygon _ id => id
  | Geometry.multiPolygon _ id => id
  | Geometry.geometryCollection _ id => id
  | Geometry.otherGeom id => id

/-- JavaScript String() of the id (String(undefined) = "undefined"). -/
def idToString : Option IdVal → String
  | some (IdVal.istr s) => s
  | some (IdVal.inum n) => toString n
  | none => "undefined"

/-- Strict equality geom.id === countryId: only a string id can be strictly
equal to the string countryId. -/
def idRawEq : Option IdVal → String → Bool
  | some (IdVal.istr s), cid => s == cid
  | _, _ => false

/-- `geom.id === countryId || String(geom.id) === countryId`. -/
def idMatches (g : Geometry) (cid : String) : Bool :=
  idRawEq (geomId g) cid || (idToString (geomId g) == cid)

def getCountryPolygons (topo : Topology) (countryId : String) : List (List (ℚ × ℚ)) :=
  match topo.objects.lookup "countries" with
  | some (Geometry.geometryCollection gs _) =>
      gs.flatMap (fun g => if idMatches g countryId then polygonRings topo g else [])
  | _ => []

/-- The geometry list getCountryPolygons scans (empty when the countries
object is missing or is not a GeometryCollection). -/
def countriesGeoms (topo : Topology) : List Geometry :=
  match topo.objects.lookup "countries" with
  | some (Geometry.geometryCollection gs _) => gs
  | _ => []

-- ── Highlight dot generator (generateHighlightDots, lines 396-432) ───────────

structure LatLngBounds where
  minLat : ℝ
  maxLat : ℝ
  minLng : ℝ
  maxLng : ℝ

/- Values visited by `for (v = lo; v <= hi; v += step)` in exact real
   arithmetic: lo + k * step for k = 0 .. floor((hi - lo) / step).  A scan
   with lo > hi visits nothing; a nonpositive step does not terminate in the
   source and is modelled as the empty scan (no claim touches that case). -/
noncomputable def gridPoints (lo hi step : ℝ) : List ℝ :=
  if 0 < step ∧ lo ≤ hi then
    (List.range (⌊(hi - lo) / step⌋₊ + 1)).map (fun k => lo + (k : ℝ) * step)
  else []

/-- center3D + (point3D - center3D) * scale, componentwise (sx, sy, sz). -/
noncomputable def scaledOffset (c3 p3 : Vec3) (scale : ℝ) : Vec3 :=
  Vec3.add c3 (Vec3.smul scale (Vec3.sub p3 c3))

/- One emitted highlight dot position: len = sqrt(sx^2+sy^2+sz^2),
   r = globeRadius * 1.08, push((sx/len)*r, (sy/len)*r, (sz/len)*r).
   (sx/len)*r = (r/len)*sx in the field, hence the single smul. -/
noncomputable def highlightDotPos (globeRadius : ℝ) (c3 p3 : Vec3) (scale : ℝ) : Vec3 :=
  let s := scaledOffset c3 p3 scale
  Vec3.smul ((globeRadius * 1.08) / Vec3.norm s) s

/- The position channel of generateHighlightDots.  The color and rndId
   channels are driven by Math.random() and do not influence positions;
   they are not modelled. -/
noncomputable def generateHighlightDotsPositions
    (highlightPolygons : List (List (ℝ × ℝ))) (globeRadius : ℝ)
    (center : ℝ × ℝ) (bounds : LatLngBounds) (density scale : ℝ) : List Vec3 :=
  let c3 := latLngTo3D center.1 center.2 globeRadius
  (gridPoints bounds.minLat bounds.maxLat density).flatMap (fun lat =>
    (gridPoints bounds.minLng bounds.maxLng density).filterMap (fun lng =>
      if pointInMultiPolygon (lng, lat) highlightPolygons then
        some (highlightDotPos globeRadius c3 (latLngTo3D lat lng globeRadius) scale)
      else none))

-- ═══ Theorems ════════════════════════════════════════════════════════════════

-- Vec3 helper lemmas

theorem Vec3.normSq_nonneg (v : Vec3) : 0 ≤ v.x ^ 2 + v.y ^ 2 + v.z ^ 2 := by positivity

theorem Vec3.norm_nonneg (v : Vec3) : 0 ≤ Vec3.norm v := Real.sqrt_nonneg _

theorem Vec3.norm_smul (c : ℝ) (v : Vec3) : Vec3.norm (Vec3.smul c v) = |c| * Vec3.norm v := by
  unfold Vec3.norm Vec3.smul
  rw [show (c * v.x) ^ 2 + (c * v.y) ^ 2 + (c * v.z) ^ 2
      = c ^ 2 * (v.x ^ 2 + v.y ^ 2 + v.z ^ 2) by ring]
  rw [Real.sqrt_mul (sq_nonneg c), Real.sqrt_sq_eq_abs]

theorem Vec3.norm_eq_zero_iff (v : Vec3) : Vec3.norm v = 0 ↔ v = Vec3.zero := by
  unfold Vec3.norm Vec3.zero
  rw [Real.sqrt_eq_zero (Vec3.normSq_nonneg v)]
  constructor
  · intro h
    have hx : v.x = 0 := by nlinarith [sq_nonneg v.x, sq_nonneg v.y, sq_nonneg v.z]
    have hy : v.y = 0 := by nlinarith [sq_nonneg v.x, sq_nonneg v.y, sq_nonneg v.z]
    have hz : v.z = 0 := by nlinarith [sq_nonneg v.x, sq_nonneg v.y, sq_nonneg v.z]
    cases v
    simp_all
  · intro h
    rw [h]
    norm_num

theorem Vec3.norm_pos_of_ne_zero (v : Vec3) (h : v ≠ Vec3.zero) : 0 < Vec3.norm v := by
  rcases lt_or_eq_of_le (Vec3.norm_nonneg v) with hlt | heq
  · exact hlt
  · exact absurd ((Vec3.norm_eq_zero_iff v).mp heq.symm) h

theorem Vec3.smul_smul (a b : ℝ) (v : Vec3) :
    Vec3.smul a (Vec3.smul b v) = Vec3.smul (a * b) v := by
  unfold Vec3.smul
  simp only [Vec3.mk.injEq]
  refine ⟨by ring, by ring, by ring⟩

theorem Vec3.smul_zero_vec (c : ℝ) : Vec3.smul c Vec3.zero = Vec3.zero := by
  unfold Vec3.smul Vec3.zero
  simp

theorem Vec3.one_smul_vec (v : Vec3) : Vec3.smul 1 v = v := by
  unfold Vec3.smul
  cases v
  simp

-- C3: the projection lands on the sphere of the requested radius

/-- C3: for every lat in [-90, 90], lng in [-180, 180] and radius r ≥ 0,
latLngTo3D lat lng r is a point of Euclidean norm exactly r (in exact real
arithmetic); the embedded function is total and pure by construction. -/
theorem latLngTo3D_norm (lat lng r : ℝ) (hlat : -90 ≤ lat ∧ lat ≤ 90)
    (hlng : -180 ≤ lng ∧ lng ≤ 180) (hr : 0 ≤ r) :
    Vec3.norm (latLngTo3D lat lng r) = r := by
  unfold latLngTo3D Vec3.norm
  have hphi := Real.sin_sq_add_cos_sq ((90 - lat) * (Real.pi / 180))
  have htheta := Real.sin_sq_add_cos_sq ((lng + 180) * (Real.pi / 180))
  have key : (-r * Real.sin ((90 - lat) * (Real.pi / 180)) * Real.cos ((lng + 180) * (Real.pi / 180))) ^ 2
      + (r * Real.cos ((90 - lat) * (Real.pi / 180))) ^ 2
      + (r * Real.sin ((90 - lat) * (Real.pi / 180)) * Real.sin ((lng + 180) * (Real.pi / 180))) ^ 2
      = r ^ 2 := by
    have expand : (-r * Real.sin ((90 - lat) * (Real.pi / 180)) * Real.cos ((lng + 180) * (Real.pi / 180))) ^ 2
        + (r * Real.cos ((90 - lat) * (Real.pi / 180))) ^ 2
        + (r * Real.sin ((90 - lat) * (Real.pi / 180)) * Real.sin ((lng + 180) * (Real.pi / 180))) ^ 2
        = r ^ 2 * ((Real.sin ((lng + 180) * (Real.pi / 180)) ^ 2 + Real.cos ((lng + 180) * (Real.pi / 180)) ^ 2)
            * Real.sin ((90 - lat) * (Real.pi / 180)) ^ 2
            + Real.cos ((90 - lat) * (Real.pi / 180)) ^ 2) := by ring
    rw [expand, htheta, one_mul, hphi, mul_one]
  simp only []
  rw [key, Real.sqrt_sq hr]

theorem latLngTo3D_norm_witness : Vec3.norm (latLngTo3D 41.7151 44.8271 1) = 1 :=
  latLngTo3D_norm 41.7151 44.8271 1 (by norm_num) (by norm_num) (by norm_num)

-- normalizeAngle helper lemmas (the while-loops' invariants)

theorem wrapDown_le (a : ℝ) : wrapDown a ≤ Real.pi := by
  induction a using wrapDown.induct with
  | case1 a h ih => rw [wrapDown, dif_pos h]; exact ih
  | case2 a h => rw [wrapDown, dif_neg h]; exact le_of_not_lt h

theorem wrapDown_mod (a : ℝ) : ∃ k : ℤ, wrapDown a = a + 2 * Real.pi * k := by
  induction a using wrapDown.induct with
  | case1 a h ih =>
      obtain ⟨k, hk⟩ := ih
      refine ⟨k - 1, ?_⟩
      rw [wrapDown, dif_pos h, hk]
      push_cast
      ring
  | case2 a h => exact ⟨0, by rw [wrapDown, dif_neg h]; push_cast; ring⟩

theorem wrapDown_eq_of_le (a : ℝ) (h : a ≤ Real.pi) : wrapDown a = a := by
  rw [wrapDown, dif_neg (not_lt.mpr h)]

theorem wrapUp_ge (a : ℝ) : -Real.pi ≤ wrapUp a := by
  induction a using wrapUp.induct with
  | case1 a h ih => rw [wrapUp, dif_pos h]; exact ih
  | case2 a h => rw [wrapUp, dif_neg h]; exact le_of_not_lt h

theorem wrapUp_le (a : ℝ) (h : a ≤ Real.pi) : wrapUp a ≤ Real.pi := by
  induction a using wrapUp.induct with
  | case1 a h1 ih =>
      rw [wrapUp, dif_pos h1]
      have hpi := Real.pi_pos
      exact ih (by linarith)
  | case2 a h1 => rw [wrapUp, dif_neg h1]; exact h

theorem wrapUp_mod (a : ℝ) : ∃ k : ℤ, wrapUp a = a + 2 * Real.pi * k := by
  induction a using wrapUp.induct with
  | case1 a h ih =>
      obtain ⟨k, hk⟩ := ih
      refine ⟨k + 1, ?_⟩
      rw [wrapUp, dif_pos h, hk]
      push_cast
      ring
  | case2 a h => exact ⟨0, by rw [wrapUp, dif_neg h]; push_cast; ring⟩

theorem wrapUp_eq_of_ge (a : ℝ) (h : -Real.pi ≤ a) : wrapUp a = a := by
  rw [wrapUp, dif_neg (not_lt.mpr h)]

theorem normalizeAngle_mem (a : ℝ) :
    -Real.pi ≤ normalizeAngle a ∧ normalizeAngle a ≤ Real.pi :=
  ⟨wrapUp_ge _, wrapUp_le _ (wrapDown_le a)⟩

theorem normalizeAngle_mod (a : ℝ) : ∃ k : ℤ, normalizeAngle a = a + 2 * Real.pi * k := by
  obtain ⟨k1, hk1⟩ := wrapDown_mod a
  obtain ⟨k2, hk2⟩ := wrapUp_mod (wrapDown a)
  refine ⟨k1 + k2, ?_⟩
  unfold normalizeAngle
  rw [hk2, hk1]
  push_cast
  ring

-- C10: normalizeAngle terminates, lands in [-pi, pi], and only shifts by 2*pi*k

/-- C10: normalizeAngle is a total function (both while-loops are proved
terminating by the well-founded measures on wrapDown/wrapUp); its result lies
in [-pi, pi] and differs from the input by an exact integer multiple of 2*pi. -/
theorem normalizeAngle_spec (a : ℝ) :
    (-Real.pi ≤ normalizeAngle a ∧ normalizeAngle a ≤ Real.pi)
    ∧ ∃ k : ℤ, normalizeAngle a = a + 2 * Real.pi * k :=
  ⟨normalizeAngle_mem a, normalizeAngle_mod a⟩

-- C2: shortest-path magnet easing on the y angle

theorem wrapDiff_core (d : ℝ) (hlo : -(3 * Real.pi) ≤ d) (hhi : d ≤ 3 * Real.pi) :
    |wrapDiff d| ≤ Real.pi ∧ ∃ j : ℤ, wrapDiff d = d + 2 * Real.pi * j := by
  have hpi := Real.pi_pos
  unfold wrapDiff
  by_cases h1 : Real.pi < d
  · rw [if_pos h1]
    have hno : ¬ (d - 2 * Real.pi < -Real.pi) := by push_neg; linarith
    rw [if_neg hno]
    refine ⟨by rw [abs_le]; constructor <;> linarith, ⟨-1, by push_cast; ring⟩⟩
  · rw [if_neg h1]
    push_neg at h1
    by_cases h2 : d < -Real.pi
    · rw [if_pos h2]
      refine ⟨by rw [abs_le]; constructor <;> linarith, ⟨1, by push_cast; ring⟩⟩
    · rw [if_neg h2]
      push_neg at h2
      refine ⟨by rw [abs_le]; constructor <;> linarith, ⟨0, by push_cast; ring⟩⟩

theorem magnetDiffY_core (ty fy : ℝ) (hfy : |fy| ≤ 2 * Real.pi) :
    |magnetDiffY ty fy| ≤ Real.pi
    ∧ ∃ k : ℤ, magnetDiffY ty fy = (fy - ty) + 2 * Real.pi * k := by
  have hpi := Real.pi_pos
  obtain ⟨hclo, hchi⟩ := normalizeAngle_mem ty
  obtain ⟨m, hm⟩ := normalizeAngle_mod ty
  obtain ⟨hflo, hfhi⟩ := abs_le.mp hfy
  have hdlo : -(3 * Real.pi) ≤ fy - normalizeAngle ty := by linarith
  have hdhi : fy - normalizeAngle ty ≤ 3 * Real.pi := by linarith
  obtain ⟨habs, j, hj⟩ := wrapDiff_core (fy - normalizeAngle ty) hdlo hdhi
  refine ⟨habs, ⟨j - m, ?_⟩⟩
  unfold magnetDiffY
  rw [hj, hm]
  push_cast
  ring

theorem magnetStepY_concrete :
    magnetStepY (170 * (Real.pi / 180)) (-(170 * (Real.pi / 180)))
      = 170 * (Real.pi / 180) + (20 * (Real.pi / 180)) * 0.09 := by
  have hpi := Real.pi_pos
  have hn : normalizeAngle (170 * (Real.pi / 180)) = 170 * (Real.pi / 180) := by
    unfold normalizeAngle
    rw [wrapDown_eq_of_le _ (by linarith), wrapUp_eq_of_ge _ (by linarith)]
  unfold magnetStepY magnetDiffY
  rw [hn]
  unfold wrapDiff
  rw [if_neg (by push_neg; linarith : ¬ Real.pi < -(170 * (Real.pi / 180)) - 170 * (Real.pi / 180))]
  rw [if_pos (by linarith : -(170 * (Real.pi / 180)) - 170 * (Real.pi / 180) < -Real.pi)]
  ring

/-- C2: in a magnet-active non-dragging frame the code normalizes the current
target y into [-pi, pi] and re-wraps the difference to the focus y into
[-pi, pi], so the applied y delta is congruent to (focusY - targetY) mod 2*pi
and has magnitude at most pi (the shortest angular path, for any focus
rotation produced from a longitude in [-180, 180]); concretely, a target y of
170 degrees with a focus y of -170 degrees moves by 0.09 times the 20-degree
short-way delta, toward the wraparound at plus or minus 180. -/
theorem magnetStep_shortest (ty lat lng : ℝ) (hlng : -180 ≤ lng ∧ lng ≤ 180) :
    (|magnetDiffY ty (focusRotation lat lng).2| ≤ Real.pi
      ∧ ∃ k : ℤ, magnetDiffY ty (focusRotation lat lng).2
          = ((focusRotation lat lng).2 - ty) + 2 * Real.pi * k)
    ∧ magnetStepY ty (focusRotation lat lng).2
        = ty + magnetDiffY ty (focusRotation lat lng).2 * 0.09
    ∧ magnetStepY (170 * (Real.pi / 180)) (-(170 * (Real.pi / 180)))
        = 170 * (Real.pi / 180) + (20 * (Real.pi / 180)) * 0.09 := by
  have hpi := Real.pi_pos
  have hmul : (lng + 90) * (Real.pi / 180) ≤ 270 * (Real.pi / 180) :=
    mul_le_mul_of_nonneg_right (by linarith [hlng.2]) (by positivity)
  have hmul2 : -90 * (Real.pi / 180) ≤ (lng + 90) * (Real.pi / 180) :=
    mul_le_mul_of_nonneg_right (by linarith [hlng.1]) (by positivity)
  have hfy : |(focusRotation lat lng).2| ≤ 2 * Real.pi := by
    unfold focusRotation
    rw [abs_le]
    constructor <;> [skip; skip] <;> simp only [] <;> nlinarith
  exact ⟨magnetDiffY_core ty _ hfy, rfl, magnetStepY_concrete⟩

theorem magnetStep_shortest_witness :
    ((-180:ℝ) ≤ 80 ∧ (80:ℝ) ≤ 180)
    ∧ ((|magnetDiffY (170 * (Real.pi / 180)) (focusRotation 0 80).2| ≤ Real.pi
        ∧ ∃ k : ℤ, magnetDiffY (170 * (Real.pi / 180)) (focusRotation 0 80).2
            = ((focusRotation 0 80).2 - 170 * (Real.pi / 180)) + 2 * Real.pi * k)
      ∧ magnetStepY (170 * (Real.pi / 180)) (focusRotation 0 80).2
          = 170 * (Real.pi / 180) + magnetDiffY (170 * (Real.pi / 180)) (focusRotation 0 80).2 * 0.09
      ∧ magnetStepY (170 * (Real.pi / 180)) (-(170 * (Real.pi / 180)))
          = 170 * (Real.pi / 180) + (20 * (Real.pi / 180)) * 0.09) :=
  ⟨by norm_num, magnetStep_shortest (170 * (Real.pi / 180)) 0 80 (by norm_num)⟩

-- C8: pulse progress increment, loop reset, visibility window

/-- C8: after a frame update, an arc's pulse is visible iff its (post-update)
progress is strictly between 0 and 1; the frame adds the fixed increment
0.006, and when the incremented progress exceeds 1.2 it is reset to
-(delay * 0.5), the delay being the per-index stagger index * 0.15 fixed at
creation. -/
theorem arcPulse_spec (arcs : List ArcState) (a : ArcState) (ha : a ∈ arcs) (i : ℕ) (p0 : ℝ) :
    arcPulseStep a ∈ arcsFrameUpdate arcs
    ∧ ((arcPulseStep a).visible = true ↔
        0 < (arcPulseStep a).pulseProgress ∧ (arcPulseStep a).pulseProgress < 1)
    ∧ (a.pulseProgress + 0.006 ≤ 1.2 →
        (arcPulseStep a).pulseProgress = a.pulseProgress + 0.006)
    ∧ (1.2 < a.pulseProgress + 0.006 →
        (arcPulseStep a).pulseProgress = -(a.delay * 0.5))
    ∧ (mkArcState i p0).delay = (i : ℝ) * 0.15 := by
  refine ⟨List.mem_map_of_mem _ ha, ?_, ?_, ?_, rfl⟩
  · simp [arcPulseStep]
  · intro h
    simp only [arcPulseStep]
    rw [if_neg (not_lt.mpr h)]
  · intro h
    simp only [arcPulseStep]
    rw [if_pos h]

theorem arcPulse_spec_witness :
    (ArcState.mk 0.5 0.15 true ∈ [ArcState.mk 0.5 0.15 true])
    ∧ (arcPulseStep (ArcState.mk 0.5 0.15 true) ∈ arcsFrameUpdate [ArcState.mk 0.5 0.15 true]
      ∧ ((arcPulseStep (ArcState.mk 0.5 0.15 true)).visible = true ↔
          0 < (arcPulseStep (ArcState.mk 0.5 0.15 true)).pulseProgress
            ∧ (arcPulseStep (ArcState.mk 0.5 0.15 true)).pulseProgress < 1)
      ∧ ((ArcState.mk 0.5 0.15 true).pulseProgress + 0.006 ≤ 1.2 →
          (arcPulseStep (ArcState.mk 0.5 0.15 true)).pulseProgress
            = (ArcState.mk 0.5 0.15 true).pulseProgress + 0.006)
      ∧ (1.2 < (ArcState.mk 0.5 0.15 true).pulseProgress + 0.006 →
          (arcPulseStep (ArcState.mk 0.5 0.15 true)).pulseProgress
            = -((ArcState.mk 0.5 0.15 true).delay * 0.5))
      ∧ (mkArcState 3 0.7).delay = ((3 : ℕ) : ℝ) * 0.15) :=
  ⟨List.mem_singleton.mpr rfl,
    arcPulse_spec [ArcState.mk 0.5 0.15 true] (ArcState.mk 0.5 0.15 true)
      (List.mem_singleton.mpr rfl) 3 0.7⟩

-- C1 helper lemmas: arc sample geometry

theorem Vec3.normSq_eq (v : Vec3) : v.x ^ 2 + v.y ^ 2 + v.z ^ 2 = Vec3.norm v ^ 2 :=
  (Real.sq_sqrt (Vec3.normSq_nonneg v)).symm

theorem Vec3.lerp_zero (s e : Vec3) : Vec3.lerp s e 0 = s := by
  unfold Vec3.lerp
  cases s
  simp

theorem Vec3.lerp_one (s e : Vec3) : Vec3.lerp s e 1 = e := by
  unfold Vec3.lerp
  cases e
  simp

theorem Vec3.norm_zero_vec : Vec3.norm Vec3.zero = 0 := by
  unfold Vec3.norm Vec3.zero
  simp

theorem createArcHeight_nonneg (R : ℝ) (s e : Vec3) (hR : 0 < R) :
    0 ≤ createArcHeight R s e := by
  unfold createArcHeight
  have hd := Vec3.norm_nonneg (Vec3.sub s e)
  unfold Vec3.dist
  refine le_min (by linarith) (by linarith)

theorem arcSin_nonneg (i : ℕ) (hi : i ≤ 50) : 0 ≤ Real.sin ((i : ℝ) / 50 * Real.pi) := by
  have hpi := Real.pi_pos
  have ht0 : (0:ℝ) ≤ (i : ℝ) / 50 := by positivity
  have ht1 : (i : ℝ) / 50 ≤ 1 := by
    rw [div_le_one (by norm_num)]
    exact_mod_cast hi
  refine Real.sin_nonneg_of_nonneg_of_le_pi (by positivity) ?_
  calc (i : ℝ) / 50 * Real.pi ≤ 1 * Real.pi :=
        mul_le_mul_of_nonneg_right ht1 (le_of_lt hpi)
    _ = Real.pi := one_mul _

theorem arcScale_pos (R : ℝ) (s e : Vec3) (i : ℕ) (hR : 0 < R) (hi : i ≤ 50) :
    0 < R + createArcHeight R s e * Real.sin ((i : ℝ) / 50 * Real.pi) := by
  have h1 := createArcHeight_nonneg R s e hR
  have h2 := arcSin_nonneg i hi
  nlinarith

/-- Norm of the i-th sample when the interpolant is not the zero vector. -/
theorem createArcPoint_norm (R : ℝ) (s e : Vec3) (i : ℕ) (hR : 0 < R) (hi : i ≤ 50)
    (hv : 0 < Vec3.norm (Vec3.lerp s e ((i : ℝ) / 50))) :
    Vec3.norm (createArcPoint R s e i)
      = R + createArcHeight R s e * Real.sin ((i : ℝ) / 50 * Real.pi) := by
  have hc := arcScale_pos R s e i hR hi
  unfold createArcPoint
  rw [Vec3.norm_smul]
  rw [abs_of_nonneg (div_nonneg (le_of_lt hc) (le_of_lt hv))]
  exact div_mul_cancel₀ _ (ne_of_gt hv)

theorem createArcPoint_formula (R : ℝ) (s e : Vec3) (i : ℕ) :
    createArcPoint R s e i
      = Vec3.smul (R + createArcHeight R s e * Real.sin ((i : ℝ) / 50 * Real.pi))
          (Vec3.normalizeV (Vec3.lerp s e ((i : ℝ) / 50))) := by
  simp only [createArcPoint, Vec3.normalizeV]
  rw [Vec3.smul_smul, div_eq_mul_inv]

theorem createArcPoint_endpoint_start (R : ℝ) (s e : Vec3) (hR : 0 < R)
    (hs : Vec3.norm s = R) : createArcPoint R s e 0 = s := by
  have ht : ((0 : ℕ) : ℝ) / 50 = 0 := by norm_num
  simp only [createArcPoint, ht, Vec3.lerp_zero, zero_mul, Real.sin_zero, mul_zero, add_zero, hs]
  rw [div_self (ne_of_gt hR), Vec3.one_smul_vec]

theorem createArcPoint_endpoint_end (R : ℝ) (s e : Vec3) (hR : 0 < R)
    (he : Vec3.norm e = R) : createArcPoint R s e 50 = e := by
  have ht : ((50 : ℕ) : ℝ) / 50 = 1 := by norm_num
  simp only [createArcPoint, ht, Vec3.lerp_one, one_mul, Real.sin_pi, mul_zero, add_zero, he]
  rw [div_self (ne_of_gt hR), Vec3.one_smul_vec]

theorem createArcPoint_le (R : ℝ) (s e : Vec3) (i : ℕ) (hR : 0 < R) (hi : i ≤ 50) :
    Vec3.norm (createArcPoint R s e i) ≤ R + 0.4 * R := by
  by_cases hv : Vec3.lerp s e ((i : ℝ) / 50) = Vec3.zero
  · simp only [createArcPoint, hv, Vec3.smul_zero_vec, Vec3.norm_zero_vec]
    nlinarith
  · have hvp := Vec3.norm_pos_of_ne_zero _ hv
    rw [createArcPoint_norm R s e i hR hi hvp]
    have hh : createArcHeight R s e ≤ R * 0.4 := min_le_left _ _
    have hh0 := createArcHeight_nonneg R s e hR
    have hsin := arcSin_nonneg i hi
    have hsin1 := Real.sin_le_one ((i : ℝ) / 50 * Real.pi)
    nlinarith

/-- Midpoint interpolant is nonzero when the chord is shorter than 4R/3
(in particular whenever the 0.3-chord height is under the 0.4-radius cap). -/
theorem lerp_half_norm_pos (R : ℝ) (s e : Vec3) (hR : 0 < R)
    (hs : Vec3.norm s = R) (he : Vec3.norm e = R)
    (hd : Vec3.dist s e * 0.3 < R * 0.4) :
    0 < Vec3.norm (Vec3.lerp s e (((25 : ℕ) : ℝ) / 50)) := by
  have hdnn : 0 ≤ Vec3.dist s e := Vec3.norm_nonneg _
  have hs2 : s.x ^ 2 + s.y ^ 2 + s.z ^ 2 = R ^ 2 := by rw [Vec3.normSq_eq, hs]
  have he2 : e.x ^ 2 + e.y ^ 2 + e.z ^ 2 = R ^ 2 := by rw [Vec3.normSq_eq, he]
  have hd2 : (s.x - e.x) ^ 2 + (s.y - e.y) ^ 2 + (s.z - e.z) ^ 2 = Vec3.dist s e ^ 2 := by
    unfold Vec3.dist
    rw [← Vec3.normSq_eq (Vec3.sub s e)]
    rfl
  have hdlt : Vec3.dist s e < 4 * R / 3 := by linarith
  have hdsq : Vec3.dist s e ^ 2 < 4 * R ^ 2 := by nlinarith
  have ht : ((25 : ℕ) : ℝ) / 50 = 1 / 2 := by norm_num
  rw [ht]
  unfold Vec3.norm
  refine Real.sqrt_pos.mpr ?_
  unfold Vec3.lerp
  simp only []
  nlinarith [hs2, he2, hd2, hdsq]

-- C1 (amended): the arc consists of 51 samples; each sample with a nonzero
-- interpolant is the renormalized interpolant scaled to R + height*sin(pi*t);
-- endpoints are reproduced exactly; no sample exceeds 1.4*R from the origin;
-- under the cap the height is exactly 0.3*distance and is attained at i = 25.

/-- C1 (amended): for endpoints on the sphere of radius R > 0, createArc
produces exactly 51 points; whenever the linear interpolant at t = i/50 is
nonzero (always the case unless the endpoints are antipodal) the i-th point
is that interpolant renormalized to unit length and scaled to
R + height*sin(pi*t) with height = min(0.4*R, 0.3*dist); the first and last
points equal the endpoints; every point's distance from the origin is at most
R + 0.4*R; and when 0.3*dist < 0.4*R the height equals exactly 0.3*dist,
attained at the midpoint sample.  (The original claim, without the nonzero-
interpolant proviso, fails for exactly antipodal endpoints: see the
counterexample.) -/
theorem createArc_spec (R : ℝ) (s e : Vec3) (hR : 0 < R)
    (hs : Vec3.norm s = R) (he : Vec3.norm e = R) :
    (createArcPoints R s e).length = 51
    ∧ (∀ i : ℕ, i ≤ 50 → Vec3.lerp s e ((i : ℝ) / 50) ≠ Vec3.zero →
        createArcPoint R s e i
          = Vec3.smul (R + createArcHeight R s e * Real.sin ((i : ℝ) / 50 * Real.pi))
              (Vec3.normalizeV (Vec3.lerp s e ((i : ℝ) / 50)))
        ∧ Vec3.norm (createArcPoint R s e i)
          = R + createArcHeight R s e * Real.sin ((i : ℝ) / 50 * Real.pi))
    ∧ createArcPoint R s e 0 = s
    ∧ createArcPoint R s e 50 = e
    ∧ (∀ i : ℕ, i ≤ 50 → Vec3.norm (createArcPoint R s e i) ≤ R + 0.4 * R)
    ∧ (Vec3.dist s e * 0.3 < R * 0.4 →
        createArcHeight R s e = Vec3.dist s e * 0.3
        ∧ Vec3.norm (createArcPoint R s e 25) = R + Vec3.dist s e * 0.3) := by
  refine ⟨by simp [createArcPoints], ?_, createArcPoint_endpoint_start R s e hR hs,
    createArcPoint_endpoint_end R s e hR he,
    fun i hi => createArcPoint_le R s e i hR hi, ?_⟩
  · intro i hi hv
    exact ⟨createArcPoint_formula R s e i,
      createArcPoint_norm R s e i hR hi (Vec3.norm_pos_of_ne_zero _ hv)⟩
  · intro hd
    have hmin : createArcHeight R s e = Vec3.dist s e * 0.3 :=
      min_eq_right (le_of_lt hd)
    refine ⟨hmin, ?_⟩
    have hvp := lerp_half_norm_pos R s e hR hs he hd
    rw [createArcPoint_norm R s e 25 hR (by norm_num) hvp, hmin]
    have hhalf : ((25 : ℕ) : ℝ) / 50 * Real.pi = Real.pi / 2 := by push_cast; ring
    rw [hhalf, Real.sin_pi_div_two, mul_one]

/-- C1 counterexample to the unamended claim: for the antipodal endpoints
(1,0,0) and (-1,0,0) on the unit sphere, the midpoint interpolant is the zero
vector, the code emits the origin for sample 25, and its distance from the
origin (0) is not radius + height*sin(pi/2) (= 1.4). -/
theorem createArc_claim_counterexample :
    ¬ (Vec3.norm (createArcPoint 1 (Vec3.mk 1 0 0) (Vec3.mk (-1) 0 0) 25)
        = 1 + createArcHeight 1 (Vec3.mk 1 0 0) (Vec3.mk (-1) 0 0)
            * Real.sin (((25 : ℕ) : ℝ) / 50 * Real.pi)) := by
  have hv : Vec3.lerp (Vec3.mk 1 0 0) (Vec3.mk (-1) 0 0) (((25 : ℕ) : ℝ) / 50) = Vec3.zero := by
    unfold Vec3.lerp Vec3.zero
    simp only [Vec3.mk.injEq]
    norm_num
  have hpt : createArcPoint 1 (Vec3.mk 1 0 0) (Vec3.mk (-1) 0 0) 25 = Vec3.zero := by
    simp only [createArcPoint, hv, Vec3.smul_zero_vec]
  have hdist : Vec3.dist (Vec3.mk 1 0 0) (Vec3.mk (-1) 0 0) = 2 := by
    unfold Vec3.dist Vec3.sub Vec3.norm
    norm_num
    rw [show (4:ℝ) = 2 ^ 2 by norm_num, Real.sqrt_sq (by norm_num)]
  have hh : createArcHeight 1 (Vec3.mk 1 0 0) (Vec3.mk (-1) 0 0) = 0.4 := by
    unfold createArcHeight
    rw [hdist]
    norm_num
  have hhalf : ((25 : ℕ) : ℝ) / 50 * Real.pi = Real.pi / 2 := by push_cast; ring
  rw [hpt, Vec3.norm_zero_vec, hh, hhalf, Real.sin_pi_div_two]
  norm_num

theorem createArc_spec_witness :
    ((0:ℝ) < 1 ∧ Vec3.norm (Vec3.mk 1 0 0) = 1 ∧ Vec3.norm (Vec3.mk 0 1 0) = 1)
    ∧ ((createArcPoints 1 (Vec3.mk 1 0 0) (Vec3.mk 0 1 0)).length = 51
      ∧ (∀ i : ℕ, i ≤ 50 → Vec3.lerp (Vec3.mk 1 0 0) (Vec3.mk 0 1 0) ((i : ℝ) / 50) ≠ Vec3.zero →
          createArcPoint 1 (Vec3.mk 1 0 0) (Vec3.mk 0 1 0) i
            = Vec3.smul (1 + createArcHeight 1 (Vec3.mk 1 0 0) (Vec3.mk 0 1 0)
                  * Real.sin ((i : ℝ) / 50 * Real.pi))
                (Vec3.normalizeV (Vec3.lerp (Vec3.mk 1 0 0) (Vec3.mk 0 1 0) ((i : ℝ) / 50)))
          ∧ Vec3.norm (createArcPoint 1 (Vec3.mk 1 0 0) (Vec3.mk 0 1 0) i)
            = 1 + createArcHeight 1 (Vec3.mk 1 0 0) (Vec3.mk 0 1 0)
                * Real.sin ((i : ℝ) / 50 * Real.pi))
      ∧ createArcPoint 1 (Vec3.mk 1 0 0) (Vec3.mk 0 1 0) 0 = Vec3.mk 1 0 0
      ∧ createArcPoint 1 (Vec3.mk 1 0 0) (Vec3.mk 0 1 0) 50 = Vec3.mk 0 1 0
      ∧ (∀ i : ℕ, i ≤ 50 →
          Vec3.norm (createArcPoint 1 (Vec3.mk 1 0 0) (Vec3.mk 0 1 0) i) ≤ 1 + 0.4 * 1)
      ∧ (Vec3.dist (Vec3.mk 1 0 0) (Vec3.mk 0 1 0) * 0.3 < 1 * 0.4 →
          createArcHeight 1 (Vec3.mk 1 0 0) (Vec3.mk 0 1 0)
            = Vec3.dist (Vec3.mk 1 0 0) (Vec3.mk 0 1 0) * 0.3
          ∧ Vec3.norm (createArcPoint 1 (Vec3.mk 1 0 0) (Vec3.mk 0 1 0) 25)
            = 1 + Vec3.dist (Vec3.mk 1 0 0) (Vec3.mk 0 1 0) * 0.3)) := by
  have hs : Vec3.norm (Vec3.mk 1 0 0) = 1 := by
    unfold Vec3.norm
    norm_num
  have he : Vec3.norm (Vec3.mk 0 1 0) = 1 := by
    unfold Vec3.norm
    norm_num
  exact ⟨⟨by norm_num, hs, he⟩, createArc_spec 1 (Vec3.mk 1 0 0) (Vec3.mk 0 1 0) (by norm_num) hs he⟩

-- C5: strict bounding-box rejection is a true fast path

theorem boundsFold_attained {α : Type} [LinearOrderedField α] (l : List (α × α)) :
    ∀ b0 : Bounds α,
      ((l.foldl boundsStep b0).minX = b0.minX ∨ ∃ q ∈ l, (l.foldl boundsStep b0).minX = q.1)
      ∧ ((l.foldl boundsStep b0).maxX = b0.maxX ∨ ∃ q ∈ l, (l.foldl boundsStep b0).maxX = q.1)
      ∧ ((l.foldl boundsStep b0).minY = b0.minY ∨ ∃ q ∈ l, (l.foldl boundsStep b0).minY = q.2)
      ∧ ((l.foldl boundsStep b0).maxY = b0.maxY ∨ ∃ q ∈ l, (l.foldl boundsStep b0).maxY = q.2) := by
  induction l with
  | nil => intro b0; simp
  | cons a t ih =>
      intro b0
      simp only [List.foldl_cons]
      obtain ⟨h1, h2, h3, h4⟩ := ih (boundsStep b0 a)
      refine ⟨?_, ?_, ?_, ?_⟩
      · rcases h1 with h | ⟨q, hq, hval⟩
        · rcases min_choice b0.minX a.1 with hm | hm
          · exact Or.inl (by rw [h]; exact hm)
          · exact Or.inr ⟨a, List.mem_cons_self a t, by rw [h]; exact hm⟩
        · exact Or.inr ⟨q, List.mem_cons_of_mem a hq, hval⟩
      · rcases h2 with h | ⟨q, hq, hval⟩
        · rcases max_choice b0.maxX a.1 with hm | hm
          · exact Or.inl (by rw [h]; exact hm)
          · exact Or.inr ⟨a, List.mem_cons_self a t, by rw [h]; exact hm⟩
        · exact Or.inr ⟨q, List.mem_cons_of_mem a hq, hval⟩
      · rcases h3 with h | ⟨q, hq, hval⟩
        · rcases min_choice b0.minY a.2 with hm | hm
          · exact Or.inl (by rw [h]; exact hm)
          · exact Or.inr ⟨a, List.mem_cons_self a t, by rw [h]; exact hm⟩
        · exact Or.inr ⟨q, List.mem_cons_of_mem a hq, hval⟩
      · rcases h4 with h | ⟨q, hq, hval⟩
        · rcases max_choice b0.maxY a.2 with hm | hm
          · exact Or.inl (by rw [h]; exact hm)
          · exact Or.inr ⟨a, List.mem_cons_self a t, by rw [h]; exact hm⟩
        · exact Or.inr ⟨q, List.mem_cons_of_mem a hq, hval⟩

/-- Each side of the computed bounding box is attained by some vertex. -/
theorem getPolygonBounds_attained {α : Type} [LinearOrderedField α]
    (poly : List (α × α)) (b : Bounds α) (h : getPolygonBounds poly = some b) :
    (∃ q ∈ poly, b.minX = q.1) ∧ (∃ q ∈ poly, b.maxX = q.1)
    ∧ (∃ q ∈ poly, b.minY = q.2) ∧ (∃ q ∈ poly, b.maxY = q.2) := by
  match poly with
  | [] => simp [getPolygonBounds] at h
  | q :: rest =>
      simp only [getPolygonBounds, Option.some.injEq] at h
      subst h
      obtain ⟨h1, h2, h3, h4⟩ := boundsFold_attained rest (⟨q.1, q.1, q.2, q.2⟩ : Bounds α)
      refine ⟨?_, ?_, ?_, ?_⟩
      · rcases h1 with h | ⟨q0, hq0, hval⟩
        · exact ⟨q, List.mem_cons_self q rest, h⟩
        · exact ⟨q0, List.mem_cons_of_mem q hq0, hval⟩
      · rcases h2 with h | ⟨q0, hq0, hval⟩
        · exact ⟨q, List.mem_cons_self q rest, h⟩
        · exact ⟨q0, List.mem_cons_of_mem q hq0, hval⟩
      · rcases h3 with h | ⟨q0, hq0, hval⟩
        · exact ⟨q, List.mem_cons_self q rest, h⟩
        · exact ⟨q0, List.mem_cons_of_mem q hq0, hval⟩
      · rcases h4 with h | ⟨q0, hq0, hval⟩
        · exact ⟨q, List.mem_cons_self q rest, h⟩
        · exact ⟨q0, List.mem_cons_of_mem q hq0, hval⟩

/-- C5: a point strictly outside a (nonempty) ring's axis-aligned bounding box
is rejected by pointInPolygon with result false, and the rejection happens
before the ray-casting loop: zero edge tests are evaluated. -/
theorem pointInPolygon_bbox_reject (p : ℚ × ℚ) (poly : List (ℚ × ℚ)) (hne : poly ≠ [])
    (hout : (∀ q ∈ poly, p.1 < q.1) ∨ (∀ q ∈ poly, q.1 < p.1)
      ∨ (∀ q ∈ poly, p.2 < q.2) ∨ (∀ q ∈ poly, q.2 < p.2)) :
    pointInPolygon p poly = false ∧ pointInPolygonEdgeTests p poly = 0 := by
  obtain ⟨b, hb⟩ : ∃ b, getPolygonBounds poly = some b := by
    match poly with
    | [] => exact absurd rfl hne
    | q :: rest => exact ⟨_, rfl⟩
  obtain ⟨hminX, hmaxX, hminY, hmaxY⟩ := getPolygonBounds_attained poly b hb
  have hguard : p.1 < b.minX ∨ b.maxX < p.1 ∨ p.2 < b.minY ∨ b.maxY < p.2 := by
    rcases hout with h | h | h | h
    · obtain ⟨q0, hq0, he⟩ := hminX
      exact Or.inl (he ▸ h q0 hq0)
    · obtain ⟨q0, hq0, he⟩ := hmaxX
      exact Or.inr (Or.inl (he ▸ h q0 hq0))
    · obtain ⟨q0, hq0, he⟩ := hminY
      exact Or.inr (Or.inr (Or.inl (he ▸ h q0 hq0)))
    · obtain ⟨q0, hq0, he⟩ := hmaxY
      exact Or.inr (Or.inr (Or.inr (he ▸ h q0 hq0)))
  constructor
  · simp only [pointInPolygon, hb]
    rw [if_pos hguard]
  · simp only [pointInPolygonEdgeTests, hb]
    rw [if_pos hguard]

theorem pointInPolygon_bbox_reject_witness :
    (([((0:ℚ), 0), (2, 0), (2, 2), (0, 2)] : List (ℚ × ℚ)) ≠ []
      ∧ (∀ q ∈ ([((0:ℚ), 0), (2, 0), (2, 2), (0, 2)] : List (ℚ × ℚ)), q.1 < ((5:ℚ), (1:ℚ)).1))
    ∧ (pointInPolygon ((5:ℚ), 1) [((0:ℚ), 0), (2, 0), (2, 2), (0, 2)] = false
      ∧ pointInPolygonEdgeTests ((5:ℚ), 1) [((0:ℚ), 0), (2, 0), (2, 2), (0, 2)] = 0) :=
  ⟨⟨by decide, by decide⟩,
    pointInPolygon_bbox_reject ((5:ℚ), 1) [((0:ℚ), 0), (2, 0), (2, 2), (0, 2)]
      (by decide) (Or.inr (Or.inl (by decide)))⟩

-- C9: the crossing condition guards the division

/-- The checked edge test never poisons: whenever the crossing condition
((yi > y) !== (yj > y)) holds, y lies strictly below one endpoint and not
below the other, so yj - yi is nonzero and the division is safe. -/
theorem edgeFlipChecked_eq_some {α : Type} [LinearOrderedField α]
    (x y : α) (vi vj : α × α) :
    edgeFlipChecked x y vi vj = some (edgeFlip x y vi vj) := by
  unfold edgeFlipChecked
  by_cases h1 : y < vi.2 <;> by_cases h2 : y < vj.2
  · simp [edgeFlip, h1, h2]
  · have hne : vj.2 - vi.2 ≠ 0 := by
      push_neg at h2
      have : vj.2 < vi.2 := lt_of_le_of_lt h2 h1
      exact ne_of_lt (by linarith)
    simp [edgeFlip, h1, h2, hne]
  · have hne : vj.2 - vi.2 ≠ 0 := by
      push_neg at h1
      have : vi.2 < vj.2 := lt_of_le_of_lt h1 h2
      exact ne_of_gt (by linarith)
    simp [edgeFlip, h1, h2, hne]
  · simp [edgeFlip, h1, h2]

theorem rayCastChecked_eq_some {α : Type} [LinearOrderedField α]
    (x y : α) (polygon : List (α × α)) :
    rayCastChecked x y polygon = some (rayCast x y polygon) := by
  unfold rayCastChecked rayCast
  have key : ∀ (l : List ((α × α) × (α × α))) (b : Bool),
      l.foldl (fun acc e => acc.bind (fun inside =>
        (edgeFlipChecked x y e.1 e.2).map (fun f => if f then !inside else inside))) (some b)
      = some (l.foldl (fun inside e => if edgeFlip x y e.1 e.2 then !inside else inside) b) := by
    intro l
    induction l with
    | nil => intro b; rfl
    | cons e t ih =>
        intro b
        simp only [List.foldl_cons]
        have hacc : ((some b).bind fun inside =>
            Option.map (fun f => if f = true then !inside else inside) (edgeFlipChecked x y e.1 e.2))
            = some (if edgeFlip x y e.1 e.2 then !b else b) := by
          rw [Option.some_bind, edgeFlipChecked_eq_some, Option.map_some']
        rw [hacc]
        exact ih _
  exact key (edgeList polygon) false

/-- C9: the ray-casting loop never divides by zero — the division is reached
only under the crossing condition, which forces yi and yj to lie on opposite
sides of y; the division-checked evaluation of pointInPolygon therefore never
poisons and agrees with the unchecked (total) function on every input. -/
theorem pointInPolygon_no_div_zero (point : ℚ × ℚ) (polygon : List (ℚ × ℚ)) :
    pointInPolygonChecked point polygon = some (pointInPolygon point polygon) := by
  cases hgb : getPolygonBounds polygon with
  | none => simp only [pointInPolygonChecked, pointInPolygon, hgb]
  | some b =>
      simp only [pointInPolygonChecked, pointInPolygon, hgb]
      by_cases hguard : point.1 < b.minX ∨ b.maxX < point.1
          ∨ point.2 < b.minY ∨ b.maxY < point.2
      · rw [if_pos hguard, if_pos hguard]
      · rw [if_neg hguard, if_neg hguard]
        exact rayCastChecked_eq_some point.1 point.2 polygon

-- C4: delta decoding, transform, reversal, and stitching of arc segments

theorem scanl_head_tail {α β : Type} (f : β → α → β) (b : β) (l : List α) :
    List.scanl f b l = b :: (List.scanl f b l).tail := by
  cases l with
  | nil => rfl
  | cons a t => rfl

theorem decodeArcLoop_eq_scanl (t : Option TopoTransform) (arc : List (ℚ × ℚ)) :
    ∀ x y : ℚ,
      decodeArcLoop t x y arc
        = ((arc.scanl (fun acc d => (acc.1 + d.1, acc.2 + d.2)) (x, y)).tail).map
            (applyTransform t) := by
  induction arc with
  | nil => intro x y; rw [List.scanl_nil]; rfl
  | cons p rest ih =>
      intro x y
      simp only [List.scanl_cons, List.singleton_append, List.tail_cons]
      rw [scanl_head_tail, List.map_cons]
      simp only [decodeArcLoop]
      exact congrArg₂ List.cons rfl (ih (x + p.1) (y + p.2))

theorem decodeSegment_eq_spec (topo : Topology) (i : ℤ) :
    decodeSegment topo i = decodeSegmentSpec topo i := by
  simp only [decodeSegment, decodeSegmentSpec, prefixSumsSpec, decodeArcLoop_eq_scanl]

theorem decodeArcLoop_length (t : Option TopoTransform) (arc : List (ℚ × ℚ)) :
    ∀ x y : ℚ, (decodeArcLoop t x y arc).length = arc.length := by
  induction arc with
  | nil => intro x y; rfl
  | cons p rest ih =>
      intro x y
      rw [decodeArcLoop]
      simp only [List.length_cons, ih]

theorem decodeSegment_ne_nil (topo : Topology) (i : ℤ)
    (h : topo.arcs.getD (resolveIndex i) [] ≠ []) : decodeSegment topo i ≠ [] := by
  unfold decodeSegment
  have hlen : (decodeArcLoop topo.transform 0 0 (topo.arcs.getD (resolveIndex i) [])).length
      = (topo.arcs.getD (resolveIndex i) []).length := decodeArcLoop_length _ _ 0 0
  have hpos : 0 < (topo.arcs.getD (resolveIndex i) []).length := List.length_pos.mpr h
  by_cases hneg : i < 0
  · rw [if_pos hneg]
    intro hcontra
    rw [← List.length_eq_zero, List.length_reverse, hlen] at hcontra
    omega
  · rw [if_neg hneg]
    intro hcontra
    rw [← List.length_eq_zero, hlen] at hcontra
    omega

theorem arcToCoords_fold_invariant (topo : Topology) (idxs : List ℤ) :
    ∀ acc : List (ℚ × ℚ), acc ≠ [] →
      idxs.foldl
        (fun coords i =>
          let seg := decodeSegment topo i
          coords ++ (if 0 < coords.length then seg.drop 1 else seg)) acc
      = acc ++ ((idxs.map (decodeSegment topo)).map (fun s => s.drop 1)).flatten := by
  induction idxs with
  | nil => intro acc hacc; simp
  | cons i rest ih =>
      intro acc hacc
      simp only [List.foldl_cons, List.map_cons, List.flatten_cons]
      have hlen : 0 < acc.length := List.length_pos.mpr hacc
      rw [if_pos hlen]
      have hne : acc ++ (decodeSegment topo i).drop 1 ≠ [] := by
        intro hcontra
        exact hacc (List.append_eq_nil.mp hcontra).1
      rw [ih _ hne, List.append_assoc]

/-- C4: arcToCoords is the documented decode: each referenced arc is the list
of cumulative sums of its integer deltas with the document's linear transform
(scale then translate) applied to each coordinate when present; a negative
index decodes the one's-complement index and traverses the result in reverse;
consecutive segments are stitched by dropping the first (shared joint) vertex
of every segment after the first, so the joint appears exactly once.  (Stated
for documents whose referenced arcs are nonempty, as the TopoJSON format
guarantees.) -/
theorem arcToCoords_spec (topo : Topology) (arcIndexes : List ℤ)
    (harcs : ∀ i ∈ arcIndexes, topo.arcs.getD (resolveIndex i) [] ≠ []) :
    arcToCoords topo arcIndexes = stitchSpec (arcIndexes.map (decodeSegmentSpec topo))
    ∧ (∀ i : ℤ, i < 0 → decodeSegment topo i = (decodeSegment topo (-i - 1)).reverse) := by
  constructor
  · cases arcIndexes with
    | nil => rfl
    | cons i rest =>
        unfold arcToCoords
        simp only [List.foldl_cons, List.length_nil, lt_self_iff_false, if_false,
          List.nil_append]
        have hseg : decodeSegment topo i ≠ [] :=
          decodeSegment_ne_nil topo i (harcs i (List.mem_cons_self i rest))
        rw [arcToCoords_fold_invariant topo rest _ hseg]
        simp only [List.map_cons, stitchSpec]
        have hmap : rest.map (decodeSegment topo) = rest.map (decodeSegmentSpec topo) :=
          List.map_congr_left (fun a _ => decodeSegment_eq_spec topo a)
        rw [hmap, decodeSegment_eq_spec]
  · intro i hi
    unfold decodeSegment
    have hres : resolveIndex i = resolveIndex (-i - 1) := by
      unfold resolveIndex
      rw [if_pos hi, if_neg (by omega)]
    have hneg2 : ¬ (-i - 1 < 0) := by omega
    rw [if_pos hi, if_neg hneg2, hres]

theorem arcToCoords_spec_witness :
    (∀ i ∈ ([0, -2] : List ℤ),
      (Topology.mk (some (TopoTransform.mk (1/2, 2) (10, 20)))
        [[(2, 2), (2, -2)], [(1, -1), (3, 1)]] []).arcs.getD (resolveIndex i) [] ≠ [])
    ∧ (arcToCoords
        (Topology.mk (some (TopoTransform.mk (1/2, 2) (10, 20)))
          [[(2, 2), (2, -2)], [(1, -1), (3, 1)]] []) [0, -2]
      = stitchSpec (([0, -2] : List ℤ).map (decodeSegmentSpec
          (Topology.mk (some (TopoTransform.mk (1/2, 2) (10, 20)))
            [[(2, 2), (2, -2)], [(1, -1), (3, 1)]] [])))
      ∧ (∀ i : ℤ, i < 0 →
          decodeSegment (Topology.mk (some (TopoTransform.mk (1/2, 2) (10, 20)))
            [[(2, 2), (2, -2)], [(1, -1), (3, 1)]] []) i
          = (decodeSegment (Topology.mk (some (TopoTransform.mk (1/2, 2) (10, 20)))
              [[(2, 2), (2, -2)], [(1, -1), (3, 1)]] []) (-i - 1)).reverse))
    ∧ arcToCoords
        (Topology.mk (some (TopoTransform.mk (1/2, 2) (10, 20)))
          [[(2, 2), (2, -2)], [(1, -1), (3, 1)]] []) [0, -2]
      = [(11, 24), (12, 20), (21/2, 18)] :=
  ⟨by decide,
    arcToCoords_spec (Topology.mk (some (TopoTransform.mk (1/2, 2) (10, 20)))
      [[(2, 2), (2, -2)], [(1, -1), (3, 1)]] []) [0, -2] (by decide),
    by norm_num [arcToCoords, decodeSegment, decodeArcLoop, resolveIndex, applyTransform,
      List.foldl]⟩

-- C7: lookup misses yield empty polygon lists, never errors

/-- C7: an object name absent from topology.objects yields the empty polygon
list; a country identifier matching no geometry (under the code's tolerant
raw-or-stringified comparison) yields the empty polygon list; and
classification of any point against an empty polygon list is false. -/
theorem lookupMiss_spec (topo : Topology) (objectName cid : String) (p : ℚ × ℚ) :
    (topo.objects.lookup objectName = none → topoJsonToPolygons topo objectName = [])
    ∧ ((∀ g ∈ countriesGeoms topo, idMatches g cid = false) →
        getCountryPolygons topo cid = [])
    ∧ pointInMultiPolygon p ([] : List (List (ℚ × ℚ))) = false := by
  refine ⟨?_, ?_, rfl⟩
  · intro h
    simp only [topoJsonToPolygons, h]
  · intro h
    have key : ∀ gs : List Geometry, (∀ g ∈ gs, idMatches g cid = false) →
        gs.flatMap (fun g => if idMatches g cid then polygonRings topo g else []) = [] := by
      intro gs
      induction gs with
      | nil => intro _; rfl
      | cons g t ih =>
          intro hall
          simp only [List.flatMap_cons, hall g (List.mem_cons_self g t), Bool.false_eq_true,
            if_false, List.nil_append]
          exact ih (fun x hx => hall x (List.mem_cons_of_mem g hx))
    cases hlk : topo.objects.lookup "countries" with
    | none =>
        unfold getCountryPolygons
        rw [hlk]
    | some g =>
        cases g with
        | geometryCollection gs gid =>
            unfold getCountryPolygons
            rw [hlk]
            unfold countriesGeoms at h
            rw [hlk] at h
            exact key gs h
        | polygon rings gid =>
            unfold getCountryPolygons
            rw [hlk]
        | multiPolygon polys gid =>
            unfold getCountryPolygons
            rw [hlk]
        | otherGeom gid =>
            unfold getCountryPolygons
            rw [hlk]

theorem lookupMiss_spec_witness :
    ((Topology.mk none []
        [("countries", Geometry.geometryCollection
          [Geometry.polygon [[0]] (some (IdVal.istr "268"))] none)]).objects.lookup "missing"
        = none
      ∧ (∀ g ∈ countriesGeoms (Topology.mk none []
          [("countries", Geometry.geometryCollection
            [Geometry.polygon [[0]] (some (IdVal.istr "268"))] none)]),
          idMatches g "840" = false))
    ∧ (topoJsonToPolygons (Topology.mk none []
        [("countries", Geometry.geometryCollection
          [Geometry.polygon [[0]] (some (IdVal.istr "268"))] none)]) "missing" = []
      ∧ getCountryPolygons (Topology.mk none []
          [("countries", Geometry.geometryCollection
            [Geometry.polygon [[0]] (some (IdVal.istr "268"))] none)]) "840" = []
      ∧ pointInMultiPolygon ((0:ℚ), 0) ([] : List (List (ℚ × ℚ))) = false) := by
  have h1 : (Topology.mk none []
      [("countries", Geometry.geometryCollection
        [Geometry.polygon [[0]] (some (IdVal.istr "268"))] none)]).objects.lookup "missing"
      = none := by rfl
  have h2 : ∀ g ∈ countriesGeoms (Topology.mk none []
      [("countries", Geometry.geometryCollection
        [Geometry.polygon [[0]] (some (IdVal.istr "268"))] none)]),
      idMatches g "840" = false := by
    intro g hg
    have hcg : countriesGeoms (Topology.mk none []
        [("countries", Geometry.geometryCollection
          [Geometry.polygon [[0]] (some (IdVal.istr "268"))] none)])
        = [Geometry.polygon [[0]] (some (IdVal.istr "268"))] := rfl
    rw [hcg, List.mem_singleton] at hg
    subst hg
    rfl
  have main := lookupMiss_spec (Topology.mk none []
    [("countries", Geometry.geometryCollection
      [Geometry.polygon [[0]] (some (IdVal.istr "268"))] none)]) "missing" "840" ((0:ℚ), 0)
  exact ⟨⟨h1, h2⟩, main.1 h1, main.2.1 h2, main.2.2⟩

-- C6: highlight dots sit at 1.08 * radius along the magnified direction

/-- C6: every dot position emitted by generateHighlightDots is the image of a
scanned grid point (lat, lng): it equals the code's dot position for the
projected center c3 and projected point p3; and whenever the magnified offset
s = c3 + scale*(p3 - c3) is nonzero (the only case in which "the
normalization of s" is defined), the dot lies at Euclidean distance exactly
1.08 times the globe radius from the origin and its direction is the
normalization of s. -/
theorem generateHighlightDots_spec
    (polys : List (List (ℝ × ℝ))) (R : ℝ) (center : ℝ × ℝ) (bounds : LatLngBounds)
    (density scale : ℝ) (hR : 0 ≤ R) :
    ∀ pos ∈ generateHighlightDotsPositions polys R center bounds density scale,
      ∃ lat lng : ℝ,
        pos = highlightDotPos R (latLngTo3D center.1 center.2 R) (latLngTo3D lat lng R) scale
        ∧ (scaledOffset (latLngTo3D center.1 center.2 R) (latLngTo3D lat lng R) scale
              ≠ Vec3.zero →
            Vec3.norm pos = R * 1.08
            ∧ pos = Vec3.smul (R * 1.08)
                (Vec3.normalizeV
                  (scaledOffset (latLngTo3D center.1 center.2 R) (latLngTo3D lat lng R) scale))) := by
  intro pos hpos
  simp only [generateHighlightDotsPositions, List.mem_flatMap, List.mem_filterMap] at hpos
  obtain ⟨lat, hlat, lng, hlng, heq⟩ := hpos
  by_cases hpim : pointInMultiPolygon (lng, lat) polys
  · rw [if_pos hpim, Option.some.injEq] at heq
    refine ⟨lat, lng, heq.symm, ?_⟩
    intro hs
    have hspos := Vec3.norm_pos_of_ne_zero _ hs
    have hpos_eq : pos = Vec3.smul ((R * 1.08) / Vec3.norm
        (scaledOffset (latLngTo3D center.1 center.2 R) (latLngTo3D lat lng R) scale))
        (scaledOffset (latLngTo3D center.1 center.2 R) (latLngTo3D lat lng R) scale) := by
      rw [← heq]
      simp only [highlightDotPos]
    constructor
    · rw [hpos_eq, Vec3.norm_smul,
        abs_of_nonneg (div_nonneg (by linarith) (le_of_lt hspos))]
      exact div_mul_cancel₀ _ (ne_of_gt hspos)
    · rw [hpos_eq]
      unfold Vec3.normalizeV
      rw [Vec3.smul_smul, div_eq_mul_inv]
  · rw [if_neg hpim] at heq
    exact absurd heq (Option.noConfusion)

-- C6 witness: a concrete one-dot run of the generator

theorem latLngTo3D_origin_eval : latLngTo3D 0 0 1 = Vec3.mk 1 0 0 := by
  simp only [latLngTo3D]
  have hphi : ((90 : ℝ) - 0) * (Real.pi / 180) = Real.pi / 2 := by ring
  have htheta : ((0 : ℝ) + 180) * (Real.pi / 180) = Real.pi := by ring
  rw [hphi, htheta, Real.sin_pi_div_two, Real.cos_pi_div_two, Real.sin_pi, Real.cos_pi]
  simp only [Vec3.mk.injEq]
  norm_num

theorem gridPoints_single_eval : gridPoints 0 0 1 = [0] := by
  rw [gridPoints, if_pos (by norm_num : (0:ℝ) < 1 ∧ (0:ℝ) ≤ 0)]
  have h0 : ⌊((0:ℝ) - 0) / 1⌋₊ = 0 := by norm_num
  rw [h0]
  show ([0] : List ℕ).map (fun k => (0:ℝ) + (k : ℝ) * 1) = [0]
  simp

theorem pim_triangle_eval :
    pointInMultiPolygon ((0:ℝ), 0) [[((0:ℝ), -1), (2, 1), (-2, 1)]] = true := by
  have hb : getPolygonBounds [((0:ℝ), -1), (2, 1), (-2, 1)]
      = some (Bounds.mk (-2) 2 (-1) 1) := by
    simp only [getPolygonBounds, List.foldl_cons, List.foldl_nil, boundsStep]
    norm_num
  have hedges : edgeList [((0:ℝ), -1), (2, 1), (-2, 1)]
      = [((((0:ℝ), -1)), ((-2:ℝ), 1)), (((2:ℝ), 1), ((0:ℝ), -1)), (((-2:ℝ), 1), ((2:ℝ), 1))] := by
    simp [edgeList, List.getLast?, List.dropLast, List.zip]
  have he1 : edgeFlip (0:ℝ) 0 ((0:ℝ), -1) ((-2:ℝ), 1) = false := by
    simp only [edgeFlip]
    norm_num
  have he2 : edgeFlip (0:ℝ) 0 ((2:ℝ), 1) ((0:ℝ), -1) = true := by
    simp only [edgeFlip]
    norm_num
  have he3 : edgeFlip (0:ℝ) 0 ((-2:ℝ), 1) ((2:ℝ), 1) = false := by
    simp only [edgeFlip]
    norm_num
  have hray : rayCast (0:ℝ) 0 [((0:ℝ), -1), (2, 1), (-2, 1)] = true := by
    rw [rayCast, hedges]
    simp only [List.foldl_cons, List.foldl_nil, he1, he2, he3]
    rfl
  have hpp : pointInPolygon ((0:ℝ), 0) [((0:ℝ), -1), (2, 1), (-2, 1)] = true := by
    rw [pointInPolygon, hb]
    show (if (0:ℝ) < -2 ∨ (2:ℝ) < 0 ∨ (0:ℝ) < -1 ∨ (1:ℝ) < 0 then false
      else rayCast (0:ℝ) 0 [((0:ℝ), -1), (2, 1), (-2, 1)]) = true
    rw [if_neg (by norm_num), hray]
  rw [pointInMultiPolygon, List.any_cons, List.any_nil, hpp]
  rfl

theorem highlightDotPos_eval :
    highlightDotPos 1 (Vec3.mk 1 0 0) (Vec3.mk 1 0 0) 2 = Vec3.mk 1.08 0 0 := by
  have hso : scaledOffset (Vec3.mk 1 0 0) (Vec3.mk 1 0 0) 2 = Vec3.mk 1 0 0 := by
    simp only [scaledOffset, Vec3.add, Vec3.smul, Vec3.sub, Vec3.mk.injEq]
    norm_num
  have hn : Vec3.norm (Vec3.mk 1 0 0) = 1 := by
    simp only [Vec3.norm]
    norm_num
  simp only [highlightDotPos, hso, hn, Vec3.smul, Vec3.mk.injEq]
  norm_num

theorem generateHighlightDots_single_eval :
    generateHighlightDotsPositions [[((0:ℝ), -1), (2, 1), (-2, 1)]] 1 (0, 0)
      (LatLngBounds.mk 0 0 0 0) 1 2 = [Vec3.mk 1.08 0 0] := by
  simp only [generateHighlightDotsPositions]
  rw [gridPoints_single_eval]
  simp only [List.flatMap_cons, List.flatMap_nil, List.filterMap_cons, pim_triangle_eval,
    if_true, List.filterMap_nil, List.append_nil]
  rw [latLngTo3D_origin_eval, highlightDotPos_eval]

theorem generateHighlightDots_spec_witness :
    ((0:ℝ) ≤ 1
      ∧ Vec3.mk 1.08 0 0 ∈ generateHighlightDotsPositions [[((0:ℝ), -1), (2, 1), (-2, 1)]] 1
          (0, 0) (LatLngBounds.mk 0 0 0 0) 1 2)
    ∧ (∃ lat lng : ℝ,
        Vec3.mk 1.08 0 0
          = highlightDotPos 1 (latLngTo3D ((0:ℝ), (0:ℝ)).1 ((0:ℝ), (0:ℝ)).2 1)
              (latLngTo3D lat lng 1) 2
        ∧ (scaledOffset (latLngTo3D ((0:ℝ), (0:ℝ)).1 ((0:ℝ), (0:ℝ)).2 1)
              (latLngTo3D lat lng 1) 2 ≠ Vec3.zero →
            Vec3.norm (Vec3.mk 1.08 0 0) = 1 * 1.08
            ∧ Vec3.mk 1.08 0 0 = Vec3.smul (1 * 1.08)
                (Vec3.normalizeV (scaledOffset (latLngTo3D ((0:ℝ), (0:ℝ)).1 ((0:ℝ), (0:ℝ)).2 1)
                  (latLngTo3D lat lng 1) 2)))) := by
  have hmem : Vec3.mk 1.08 0 0 ∈ generateHighlightDotsPositions [[((0:ℝ), -1), (2, 1), (-2, 1)]] 1
      (0, 0) (LatLngBounds.mk 0 0 0 0) 1 2 := by
    rw [generateHighlightDots_single_eval]
    exact List.mem_singleton.mpr rfl
  exact ⟨⟨by norm_num, hmem⟩,
    generateHighlightDots_spec [[((0:ℝ), -1), (2, 1), (-2, 1)]] 1 (0, 0)
      (LatLngBounds.mk 0 0 0 0) 1 2 (by norm_num) (Vec3.mk 1.08 0 0) hmem⟩
